import Mathlib

/-!
Verification of the panchayat election module (`12-panchayat-election.js`).

The JavaScript module is shallowly embedded:
* JS objects used as string-keyed dictionaries (`votes`, tallies) and the
  `Map` `candidateMap` are insertion-ordered association lists
  `List (String × α)`; `alGet`/`alSet` mirror property read and
  `obj[k] = v` / `Map.set` (update in place keeps the key's position,
  a new key is appended, matching JS enumeration order).
* JS `Set`s are duplicate-free `List String` in insertion order.
* `null`/`undefined`/non-object arguments are modelled with `Option`.
* Callback arguments are `JSCallback`: either a function or a
  non-invocable value (anything failing `typeof f === 'function'`).
* A returned JS `null` is `Option.none`.
-/

namespace Panchayat

/-- First-occurrence lookup in an association list (JS property read;
`none` is `undefined`). -/
def alGet (m : List (String × α)) (k : String) : Option α :=
  match m with
  | [] => none
  | (k', v') :: rest => if k' = k then some v' else alGet rest k

/-- JS `obj[k] = v` / `Map.set`: replace the value at the first occurrence
of `k` keeping its position, otherwise append `(k, v)` at the end. -/
def alSet (m : List (String × α)) (k : String) (v : α) : List (String × α) :=
  match m with
  | [] => [(k, v)]
  | (k', v') :: rest => if k' = k then (k, v) :: rest else (k', v') :: alSet rest k v

/-- The keys of an association list, in enumeration order. -/
def keysList (m : List (String × α)) : List String := m.map Prod.fst

/-- A candidate record `{ id, name, party }`. -/
structure Candidate where
  id : String
  name : String
  party : String
deriving DecidableEq, Repr

/-- A voter argument to `registerVoter`: each field is `none` when missing.
`age` is `some n` exactly when the field holds a number. -/
structure JSVoter where
  id : Option String
  name : Option String
  age : Option Int
deriving DecidableEq, Repr

/-- The private closed-over state of one `createElection` instance. -/
structure ElectionState where
  votes : List (String × Nat)
  registeredVoters : List String
  votedVoters : List String
  candidateMap : List (String × Candidate)
deriving DecidableEq, Repr

/-- `createElection(candidates)`: one pass over `candidates` populating
`candidateMap` and zero-initialising `votes`. -/
def createElection (candidates : List Candidate) : ElectionState :=
  let maps := candidates.foldl
    (fun (acc : List (String × Nat) × List (String × Candidate)) c =>
      (alSet acc.1 c.id 0, alSet acc.2 c.id c))
    ([], [])
  { votes := maps.1
    registeredVoters := []
    votedVoters := []
    candidateMap := maps.2 }

/-- `registerVoter(voter)`: returns the JS boolean result together with the
updated state.  `!voter || !voter.id || !voter.name` rejects a missing
record and falsy (missing or empty-string) `id`/`name`;
`typeof voter.age !== 'number'` rejects a missing/non-number age. -/
def registerVoter (st : ElectionState) (voter : Option JSVoter) :
    Bool × ElectionState :=
  match voter with
  | none => (false, st)
  | some v =>
    match v.id, v.name, v.age with
    | some id, some name, some age =>
      if id = "" ∨ name = "" then (false, st)
      else if age < 18 then (false, st)
      else if id ∈ st.registeredVoters then (false, st)
      else (true, { st with registeredVoters := st.registeredVoters.concat id })
    | _, _, _ => (false, st)

/-- A callback argument: `fn f` when `typeof cb === 'function'`, otherwise
`notInvocable`. -/
inductive JSCallback (α β : Type) where
  | notInvocable
  | fn (f : α → β)

/-- The argument object `{ voterId, candidateId }` passed to `onSuccess`. -/
structure VotePayload where
  voterId : String
  candidateId : String
deriving DecidableEq, Repr

/-- `castVote(voterId, candidateId, onSuccess, onError)`: returns the JS
return value (`none` is `null`, `some b` is the invoked callback's result)
together with the updated state.  `votes[candidateId]++` reads the current
count (always present: `candidateId` is a `candidateMap` key and the two
key sets coincide from construction) and writes it back incremented. -/
def castVote (st : ElectionState) (voterId candidateId : String)
    (onSuccess : JSCallback VotePayload β) (onError : JSCallback String β) :
    Option β × ElectionState :=
  match onSuccess, onError with
  | JSCallback.fn fS, JSCallback.fn fE =>
    if voterId ∉ st.registeredVoters then
      (some (fE "Voter not registered"), st)
    else if voterId ∈ st.votedVoters then
      (some (fE "Voter already voted"), st)
    else if (alGet st.candidateMap candidateId).isSome = false then
      (some (fE "Invalid candidate"), st)
    else
      (some (fS ⟨voterId, candidateId⟩),
       { st with
          votes := alSet st.votes candidateId
            ((alGet st.votes candidateId).getD 0 + 1)
          votedVoters := st.votedVoters.concat voterId })
  | _, _ => (none, st)

/-- One row of `getResults()`: `{ id, name, party, votes }`. -/
structure ResultEntry where
  id : String
  name : String
  party : String
  votes : Nat
deriving DecidableEq, Repr

/-- Stable insertion of `x` into `l` for a JS comparator: `x` goes before
the first element `y` with `cmp x y ≤ 0` (ES2022 `Array.prototype.sort`
leaves `x` after exactly the elements that must sort before it). -/
def insertCmp (cmp : α → α → Int) (x : α) : List α → List α
  | [] => [x]
  | y :: ys => if cmp x y ≤ 0 then x :: y :: ys else y :: insertCmp cmp x ys

/-- Stable sort by a JS comparator (`Array.prototype.sort` is stable). -/
def sortCmp (cmp : α → α → Int) : List α → List α
  | [] => []
  | x :: xs => insertCmp cmp x (sortCmp cmp xs)

/-- The default comparator `(a, b) => b.votes - a.votes`. -/
def byVotesDesc (a b : ResultEntry) : Int := (b.votes : Int) - (a.votes : Int)

/-- The rows pushed by the `for ... of candidateMap` loop of `getResults`,
in `candidateMap` iteration order, before sorting.  `votes[id]` is always
present for a `candidateMap` key `id` (the key sets coincide). -/
def buildResults (st : ElectionState) : List ResultEntry :=
  st.candidateMap.map fun e =>
    { id := e.2.id
      name := e.2.name
      party := e.2.party
      votes := (alGet st.votes e.1).getD 0 }

/-- `getResults(sortFn)`: `sortFn` is `none` when absent or not a function
(`sortFn && typeof sortFn === 'function'` fails); then the default
comparator `(a, b) => b.votes - a.votes` is used. -/
def getResults (st : ElectionState)
    (sortFn : Option (ResultEntry → ResultEntry → Int)) : List ResultEntry :=
  match sortFn with
  | some f => sortCmp f (buildResults st)
  | none => sortCmp byVotesDesc (buildResults st)

/-- One step of the `getWinner` loop: `if (votes[id] > maxVotes)` is false
when `votes[id]` is `undefined` (JS `undefined > m` is `false`). -/
def winStep (st : ElectionState) (acc : Int × Option Candidate)
    (e : String × Candidate) : Int × Option Candidate :=
  match alGet st.votes e.1 with
  | some v => if (v : Int) > acc.1 then ((v : Int), some e.2) else acc
  | none => acc

/-- `getWinner()`: `null` when the reduced vote total is 0, otherwise the
candidate found by the strict-`>` scan started at `maxVotes = -1`. -/
def getWinner (st : ElectionState) : Option Candidate :=
  let totalVotes := (st.votes.map Prod.snd).foldl (· + ·) 0
  if totalVotes = 0 then none
  else (st.candidateMap.foldl (winStep st) ((-1 : Int), none)).2

/-- The `rules` configuration of `createVoteValidator`.  `minAge` is
`some m` when the field holds a number (`0` is falsy and disables the age
check); `requiredFields` is `none` when absent (an array, even empty, is
truthy). -/
structure ValidatorRules where
  minAge : Option Int
  requiredFields : Option (List String)
deriving Repr

/-- A voter argument to a validator: `fields` are its own property names
(`hasOwnProperty`), `age` is `some n` exactly when the `age` property
holds a number (so `voter.age < minAge` is a false NaN-comparison when
`age` is `none`). -/
structure ValidVoter where
  fields : List String
  age : Option Int
deriving Repr

/-- The `{ valid, reason }` record returned by a validator. -/
structure ValidationResult where
  valid : Bool
  reason : String
deriving DecidableEq, Repr

/-- The `for (const field of rules.requiredFields)` loop: the first field
not an own property of the voter, if any. -/
def firstMissing (fields : List String) (v : ValidVoter) : Option String :=
  match fields with
  | [] => none
  | f :: rest => if f ∈ v.fields then firstMissing rest v else some f

/-- JS `voter.age < minAge`: false when `age` is missing or not a number
(`undefined < m` and NaN comparisons are false). -/
def jsAgeLt (age : Option Int) (m : Int) : Bool :=
  match age with
  | some a => a < m
  | none => false

/-- `createVoteValidator(rules)`: the returned validation function.  The
voter argument is `none` when `!voter || typeof voter !== 'object'`. -/
def createVoteValidator (rules : ValidatorRules) :
    Option ValidVoter → ValidationResult :=
  fun voter =>
    match voter with
    | none => { valid := false, reason := "Invalid voter object" }
    | some v =>
      let fieldCheck : Option String :=
        match rules.requiredFields with
        | some fields => firstMissing fields v
        | none => none
      match fieldCheck with
      | some f => { valid := false, reason := "Missing field: " ++ f }
      | none =>
        match rules.minAge with
        | some m =>
          if m ≠ 0 ∧ jsAgeLt v.age m then
            { valid := false, reason := "Age must be at least " ++ toString m }
          else { valid := true, reason := "" }
        | none => { valid := true, reason := "" }

/-- A region tree node `{ name, votes, subRegions }`: `votes` is `some n`
when the field holds a number, `subRegions` is `some children` exactly
when `Array.isArray(subRegions)`; each child may itself be `null`/invalid
(`none`). -/
inductive RegionTree where
  | node (name : String) (votes : Option Int)
      (subRegions : Option (List (Option RegionTree)))
deriving Repr

mutual

/-- `countVotesInRegions(regionTree)`: 0 for `null`/non-object input,
otherwise `regionTree.votes || 0` plus the recursive child sum. -/
def countVotesInRegions : Option RegionTree → Int
  | none => 0
  | some (RegionTree.node _ votes subRegions) =>
    votes.getD 0 +
      match subRegions with
      | some children => sumRegions children
      | none => 0

/-- The `for (const subRegion of regionTree.subRegions)` accumulation. -/
def sumRegions : List (Option RegionTree) → Int
  | [] => 0
  | c :: rest => countVotesInRegions c + sumRegions rest

end

/-- `tallyPure(currentTally, candidateId)`: spread-copy the tally, then
increment `candidateId`'s count, or set it to 1 (appending the new key)
when `hasOwnProperty` fails. -/
def tallyPure (currentTally : List (String × Nat)) (candidateId : String) :
    List (String × Nat) :=
  let newTally := currentTally
  if (alGet newTally candidateId).isSome then
    alSet newTally candidateId ((alGet newTally candidateId).getD 0 + 1)
  else
    alSet newTally candidateId 1

/-- One external call on an election instance.  Callback return values do
not affect the state, so trace callbacks are `Unit`-valued. -/
inductive ElectionOp where
  | register (voter : Option JSVoter)
  | cast (voterId candidateId : String)
      (onSuccess : JSCallback VotePayload Unit) (onError : JSCallback String Unit)

/-- The state transition of one call. -/
def stepOp (st : ElectionState) : ElectionOp → ElectionState
  | ElectionOp.register voter => (registerVoter st voter).2
  | ElectionOp.cast vid cid os oe => (castVote st vid cid os oe).2

/-- The state after a sequence of calls. -/
def runOps (st : ElectionState) (ops : List ElectionOp) : ElectionState :=
  ops.foldl stepOp st

/-- States produced by `createElection` followed by any sequence of
`registerVoter`/`castVote` calls. -/
def Reachable (st : ElectionState) : Prop :=
  ∃ candidates ops, runOps (createElection candidates) ops = st

/-- The vote count of key `k` (0 for a missing key). -/
def votesAt (st : ElectionState) (k : String) : Nat :=
  (alGet st.votes k).getD 0

/-- The sum of all stored vote counts. -/
def sumVotes (st : ElectionState) : Nat :=
  (st.votes.map Prod.snd).sum

/-- The maximum vote count over the candidates, 0 when there are none. -/
def maxCount (st : ElectionState) : Nat :=
  (st.candidateMap.map fun e => votesAt st e.1).foldr max 0


theorem keysList_cons (p : String × α) (rest : List (String × α)) :
    keysList (p :: rest) = p.1 :: keysList rest := rfl

theorem alGet_alSet_self (m : List (String × α)) (k : String) (v : α) :
    alGet (alSet m k v) k = some v := by
  induction m with
  | nil => simp [alGet, alSet]
  | cons p rest ih =>
    by_cases hp : p.1 = k
    · simp [alSet, alGet, hp]
    · simp [alSet, alGet, hp, ih]

theorem alGet_alSet_ne (m : List (String × α)) (k k' : String) (v : α)
    (h : k' ≠ k) : alGet (alSet m k v) k' = alGet m k' := by
  have hk : ¬ k = k' := fun hc => h hc.symm
  induction m with
  | nil => simp [alGet, alSet, hk]
  | cons p rest ih =>
    by_cases hp : p.1 = k
    · have hpk' : ¬ p.1 = k' := fun hc => hk (hp.symm.trans hc)
      simp [alSet, hp, alGet, hk, hpk']
    · simp [alSet, hp, alGet, ih]

theorem keysList_alSet (m : List (String × α)) (k : String) (v : α) :
    keysList (alSet m k v) =
      if k ∈ keysList m then keysList m else keysList m ++ [k] := by
  induction m with
  | nil => simp [alSet, keysList]
  | cons p rest ih =>
    by_cases hp : p.1 = k
    · have hmem : k ∈ keysList (p :: rest) := by
        rw [keysList_cons, hp]
        exact List.mem_cons_self _ _
      rw [if_pos hmem]
      simp [alSet, hp, keysList_cons]
    · have hne : ¬ k = p.1 := fun hc => hp hc.symm
      simp only [alSet, if_neg hp, keysList_cons, ih]
      by_cases hm : k ∈ keysList rest
      · have hmem : k ∈ p.1 :: keysList rest := List.mem_cons_of_mem _ hm
        rw [if_pos hm, if_pos hmem]
      · have hmem : k ∉ p.1 :: keysList rest := by
          intro hc
          rcases List.mem_cons.mp hc with hc | hc
          · exact hne hc
          · exact hm hc
        rw [if_neg hm, if_neg hmem]
        simp

theorem alGet_isSome_iff (m : List (String × α)) (k : String) :
    (alGet m k).isSome = true ↔ k ∈ keysList m := by
  induction m with
  | nil => simp [alGet, keysList]
  | cons p rest ih =>
    rw [keysList_cons]
    by_cases hp : p.1 = k
    · simp [alGet, hp]
    · have hne : ¬ k = p.1 := fun hc => hp hc.symm
      simp [alGet, hp, hne, ih]

theorem sum_alSet_inc (m : List (String × Nat)) (k : String)
    (h : k ∈ keysList m) :
    ((alSet m k ((alGet m k).getD 0 + 1)).map Prod.snd).sum =
      (m.map Prod.snd).sum + 1 := by
  induction m with
  | nil => simp [keysList] at h
  | cons p rest ih =>
    by_cases hp : p.1 = k
    · simp only [alGet, if_pos hp, alSet, Option.getD_some, List.map_cons,
        List.sum_cons]
      omega
    · have hne : ¬ k = p.1 := fun hc => hp hc.symm
      have hm : k ∈ keysList rest := by
        rw [keysList_cons] at h
        rcases List.mem_cons.mp h with hc | hc
        · exact absurd hc hne
        · exact hc
      simp only [alGet, if_neg hp, alSet, List.map_cons, List.sum_cons, ih hm]
      omega

theorem values_alSet_zero (m : List (String × Nat)) (k : String)
    (h : ∀ p ∈ m, p.2 = 0) : ∀ p ∈ alSet m k 0, p.2 = 0 := by
  induction m with
  | nil =>
    intro p hp
    simp [alSet] at hp
    simp [hp]
  | cons q rest ih =>
    intro p hp
    by_cases hq : q.1 = k
    · simp only [alSet, if_pos hq] at hp
      rcases List.mem_cons.mp hp with hc | hc
      · simp [hc]
      · exact h p (List.mem_cons_of_mem _ hc)
    · simp only [alSet, if_neg hq] at hp
      rcases List.mem_cons.mp hp with hc | hc
      · rw [hc]
        exact h q (List.mem_cons_self _ _)
      · exact ih (fun r hr => h r (List.mem_cons_of_mem _ hr)) p hc

/-- The inductive invariant of an election instance. -/
structure StrongInv (st : ElectionState) : Prop where
  subset : ∀ x ∈ st.votedVoters, x ∈ st.registeredVoters
  sumEq : sumVotes st = st.votedVoters.length
  keysEq : keysList st.votes = keysList st.candidateMap
  votedNodup : st.votedVoters.Nodup
  keysNodup : (keysList st.votes).Nodup

theorem initMaps_spec (candidates : List Candidate)
    (acc : List (String × Nat) × List (String × Candidate))
    (hkeys : keysList acc.1 = keysList acc.2)
    (hnd : (keysList acc.1).Nodup)
    (hzero : ∀ p ∈ acc.1, p.2 = 0) :
    keysList (candidates.foldl
        (fun acc c => (alSet acc.1 c.id 0, alSet acc.2 c.id c)) acc).1 =
      keysList (candidates.foldl
        (fun acc c => (alSet acc.1 c.id 0, alSet acc.2 c.id c)) acc).2 ∧
    (keysList (candidates.foldl
        (fun acc c => (alSet acc.1 c.id 0, alSet acc.2 c.id c)) acc).1).Nodup ∧
    ∀ p ∈ (candidates.foldl
        (fun acc c => (alSet acc.1 c.id 0, alSet acc.2 c.id c)) acc).1,
      p.2 = 0 := by
  induction candidates generalizing acc with
  | nil => exact ⟨hkeys, hnd, hzero⟩
  | cons c rest ih =>
    simp only [List.foldl_cons]
    apply ih
    · rw [keysList_alSet, keysList_alSet, hkeys]
    · rw [keysList_alSet]
      by_cases hm : c.id ∈ keysList acc.1
      · rw [if_pos hm]
        exact hnd
      · rw [if_neg hm, List.nodup_append]
        refine ⟨hnd, List.nodup_singleton _, ?_⟩
        intro a ha hb
        rw [List.mem_singleton] at hb
        exact hm (hb ▸ ha)
    · exact values_alSet_zero acc.1 c.id hzero

theorem strongInv_createElection (candidates : List Candidate) :
    StrongInv (createElection candidates) := by
  have h := initMaps_spec candidates ([], []) rfl List.Pairwise.nil
    (by intro p hp; simp at hp)
  refine ⟨?_, ?_, h.1, List.Pairwise.nil, h.2.1⟩
  · intro x hx
    exact absurd hx (List.not_mem_nil x)
  · show ((createElection candidates).votes.map Prod.snd).sum = _
    have hz : ∀ x ∈ (createElection candidates).votes.map Prod.snd, x = 0 := by
      intro x hx
      rcases List.mem_map.mp hx with ⟨p, hp, hpx⟩
      exact hpx ▸ h.2.2 p hp
    rw [List.sum_eq_zero hz]
    rfl

theorem strongInv_addVoter (st : ElectionState) (id : String)
    (h : StrongInv st) :
    StrongInv { st with registeredVoters := st.registeredVoters.concat id } := by
  refine ⟨?_, h.sumEq, h.keysEq, h.votedNodup, h.keysNodup⟩
  intro x hx
  show x ∈ st.registeredVoters.concat id
  rw [List.concat_eq_append]
  exact List.mem_append_left _ (h.subset x hx)

theorem strongInv_register (st : ElectionState) (voter : Option JSVoter)
    (h : StrongInv st) : StrongInv (registerVoter st voter).2 := by
  rcases voter with _ | v
  · exact h
  · rcases v with ⟨vid, vname, vage⟩
    rcases vid with _ | id
    · exact h
    · rcases vname with _ | name
      · exact h
      · rcases vage with _ | age
        · exact h
        · simp only [registerVoter]
          by_cases h1 : id = "" ∨ name = ""
          · simpa [h1] using h
          · by_cases h2 : age < 18
            · simpa [h1, h2] using h
            · by_cases h3 : id ∈ st.registeredVoters
              · simpa [h1, h2, h3] using h
              · simpa [h1, h2, h3] using strongInv_addVoter st id h

theorem strongInv_cast (st : ElectionState) (vid cid : String)
    (os : JSCallback VotePayload β) (oe : JSCallback String β)
    (h : StrongInv st) : StrongInv (castVote st vid cid os oe).2 := by
  cases os with
  | notInvocable => exact h
  | fn fS =>
    cases oe with
    | notInvocable => exact h
    | fn fE =>
      simp only [castVote]
      by_cases h1 : vid ∈ st.registeredVoters
      · by_cases h2 : vid ∈ st.votedVoters
        · simpa [h1, h2] using h
        · by_cases h3 : (alGet st.candidateMap cid).isSome = true
          · have hcid : cid ∈ keysList st.votes := by
              rw [h.keysEq]
              exact (alGet_isSome_iff _ _).mp h3
            simp only [h1, h2, h3, not_true, not_false_iff, if_true, if_false,
              ite_true, ite_false, Bool.true_eq_false]
            refine ⟨?_, ?_, ?_, ?_, ?_⟩
            · show ∀ x ∈ st.votedVoters.concat vid, x ∈ st.registeredVoters
              intro x hx
              rw [List.concat_eq_append] at hx
              rcases List.mem_append.mp hx with hx | hx
              · exact h.subset x hx
              · rw [List.mem_singleton] at hx
                rw [hx]
                exact h1
            · show ((alSet st.votes cid
                  ((alGet st.votes cid).getD 0 + 1)).map Prod.snd).sum =
                (st.votedVoters.concat vid).length
              rw [sum_alSet_inc st.votes cid hcid, List.concat_eq_append,
                List.length_append]
              have hs : (st.votes.map Prod.snd).sum = st.votedVoters.length :=
                h.sumEq
              rw [hs]
              rfl
            · show keysList (alSet st.votes cid
                  ((alGet st.votes cid).getD 0 + 1)) = keysList st.candidateMap
              rw [keysList_alSet, if_pos hcid]
              exact h.keysEq
            · show (st.votedVoters.concat vid).Nodup
              rw [List.concat_eq_append, List.nodup_append]
              refine ⟨h.votedNodup, List.nodup_singleton _, ?_⟩
              intro a ha hb
              rw [List.mem_singleton] at hb
              exact h2 (hb ▸ ha)
            · show (keysList (alSet st.votes cid
                  ((alGet st.votes cid).getD 0 + 1))).Nodup
              rw [keysList_alSet, if_pos hcid]
              exact h.keysNodup
          · have hf : (alGet st.candidateMap cid).isSome = false := by
              simpa using h3
            simpa [h1, h2, hf] using h
      · simpa [h1] using h

theorem strongInv_stepOp (st : ElectionState) (op : ElectionOp)
    (h : StrongInv st) : StrongInv (stepOp st op) := by
  cases op with
  | register voter => exact strongInv_register st voter h
  | cast vid cid os oe => exact strongInv_cast st vid cid os oe h

theorem strongInv_runOps (st : ElectionState) (ops : List ElectionOp)
    (h : StrongInv st) : StrongInv (runOps st ops) := by
  induction ops generalizing st with
  | nil => exact h
  | cons op rest ih => exact ih (stepOp st op) (strongInv_stepOp st op h)

theorem strongInv_reachable (st : ElectionState) (h : Reachable st) :
    StrongInv st := by
  rcases h with ⟨candidates, ops, hrun⟩
  exact hrun ▸ strongInv_runOps _ ops (strongInv_createElection candidates)

/-- Claim C1: after `createElection` and any sequence of `registerVoter`
and `castVote` calls, the voted set is contained in the registered set,
the vote counts sum to the number of voters that voted, and the key set
of `votes` equals the key set of `candidateMap`. -/
theorem claim_C1 (candidates : List Candidate) (ops : List ElectionOp) :
    (∀ x ∈ (runOps (createElection candidates) ops).votedVoters,
        x ∈ (runOps (createElection candidates) ops).registeredVoters) ∧
    ((runOps (createElection candidates) ops).votedVoters.Nodup ∧
      sumVotes (runOps (createElection candidates) ops) =
        (runOps (createElection candidates) ops).votedVoters.length) ∧
    (∀ k, k ∈ keysList (runOps (createElection candidates) ops).votes ↔
        k ∈ keysList (runOps (createElection candidates) ops).candidateMap) := by
  have h := strongInv_runOps _ ops (strongInv_createElection candidates)
  exact ⟨h.subset, ⟨h.votedNodup, h.sumEq⟩, fun k => by rw [h.keysEq]⟩

/-- A sample candidate used by the concrete witnesses. -/
def wCand1 : Candidate := { id := "C1", name := "Sarpanch Ram", party := "Janata" }

/-- A second sample candidate used by the concrete witnesses. -/
def wCand2 : Candidate := { id := "C2", name := "Pradhan Sita", party := "Lok" }

/-- A sample call sequence: one registration and one successful vote. -/
def wOps : List ElectionOp :=
  [ElectionOp.register (some ⟨some "V1", some "Mohan", some 25⟩),
   ElectionOp.cast "V1" "C1" (JSCallback.fn fun _ => ()) (JSCallback.fn fun _ => ())]

theorem claim_C1_witness :
    sumVotes (runOps (createElection [wCand1, wCand2]) wOps) =
      (runOps (createElection [wCand1, wCand2]) wOps).votedVoters.length :=
  (claim_C1 [wCand1, wCand2] wOps).2.1.2

/-- Claim C2: with a non-invocable callback `castVote` returns `null` and
leaves the state unchanged without invoking anything; with invocable
callbacks each validation failure invokes `onError` with exactly one of
the three reason strings — unregistered voter first, then already-voted,
then unknown candidate — and leaves the state unchanged. -/
theorem claim_C2 (st : ElectionState) (vid cid : String)
    (os : JSCallback VotePayload β) (oe : JSCallback String β)
    (fS : VotePayload → β) (fE : String → β) :
    ((os = JSCallback.notInvocable ∨ oe = JSCallback.notInvocable) →
      castVote st vid cid os oe = (none, st)) ∧
    (vid ∉ st.registeredVoters →
      castVote st vid cid (JSCallback.fn fS) (JSCallback.fn fE) =
        (some (fE "Voter not registered"), st)) ∧
    (vid ∈ st.registeredVoters → vid ∈ st.votedVoters →
      castVote st vid cid (JSCallback.fn fS) (JSCallback.fn fE) =
        (some (fE "Voter already voted"), st)) ∧
    (vid ∈ st.registeredVoters → vid ∉ st.votedVoters →
      alGet st.candidateMap cid = none →
      castVote st vid cid (JSCallback.fn fS) (JSCallback.fn fE) =
        (some (fE "Invalid candidate"), st)) := by
  refine ⟨?_, ?_, ?_, ?_⟩
  · intro h
    rcases h with h | h
    · subst h
      cases oe <;> rfl
    · subst h
      cases os <;> rfl
  · intro h1
    simp [castVote, h1]
  · intro h1 h2
    simp [castVote, h1, h2]
  · intro h1 h2 h3
    simp [castVote, h1, h2, h3]

theorem claim_C2_witness :
    castVote (createElection [wCand1]) "V9" "C1"
        (JSCallback.notInvocable : JSCallback VotePayload Unit)
        (JSCallback.fn fun _ => ()) = (none, createElection [wCand1]) ∧
    castVote (createElection [wCand1]) "V9" "C1"
        (JSCallback.fn fun _ => "ok") (JSCallback.fn fun s => s) =
      (some "Voter not registered", createElection [wCand1]) :=
  ⟨(claim_C2 (createElection [wCand1]) "V9" "C1" JSCallback.notInvocable
      (JSCallback.fn fun _ => ()) (fun _ => ()) (fun _ => ())).1 (Or.inl rfl),
   (claim_C2 (createElection [wCand1]) "V9" "C1"
      (JSCallback.fn fun _ => "ok") (JSCallback.fn fun s => s)
      (fun _ => "ok") (fun s => s)).2.1 (by decide)⟩

/-- Claim C3: on a valid vote, `castVote` returns `onSuccess({voterId,
candidateId})`'s value, increments exactly the chosen candidate's count
by one, appends the voter to the voted set, and changes nothing else. -/
theorem claim_C3 (st : ElectionState) (vid cid : String)
    (fS : VotePayload → β) (fE : String → β)
    (h1 : vid ∈ st.registeredVoters) (h2 : vid ∉ st.votedVoters)
    (h3 : (alGet st.candidateMap cid).isSome = true) :
    (castVote st vid cid (JSCallback.fn fS) (JSCallback.fn fE)).1 =
      some (fS ⟨vid, cid⟩) ∧
    votesAt (castVote st vid cid (JSCallback.fn fS) (JSCallback.fn fE)).2 cid =
      votesAt st cid + 1 ∧
    (∀ k, k ≠ cid →
      votesAt (castVote st vid cid (JSCallback.fn fS) (JSCallback.fn fE)).2 k =
        votesAt st k) ∧
    (castVote st vid cid (JSCallback.fn fS) (JSCallback.fn fE)).2.votedVoters =
      st.votedVoters.concat vid ∧
    (castVote st vid cid (JSCallback.fn fS) (JSCallback.fn fE)).2.registeredVoters =
      st.registeredVoters ∧
    (castVote st vid cid (JSCallback.fn fS) (JSCallback.fn fE)).2.candidateMap =
      st.candidateMap := by
  have hres : castVote st vid cid (JSCallback.fn fS) (JSCallback.fn fE) =
      (some (fS ⟨vid, cid⟩),
       { st with
          votes := alSet st.votes cid ((alGet st.votes cid).getD 0 + 1)
          votedVoters := st.votedVoters.concat vid }) := by
    simp [castVote, h1, h2, h3]
  rw [hres]
  refine ⟨rfl, ?_, ?_, rfl, rfl, rfl⟩
  · show votesAt _ cid = _
    simp [votesAt, alGet_alSet_self]
  · intro k hk
    show votesAt _ k = _
    simp [votesAt, alGet_alSet_ne st.votes cid k _ hk]

/-- The state after registering voter V1 in a two-candidate election,
used by the concrete witnesses. -/
def wSt1 : ElectionState :=
  (registerVoter (createElection [wCand1, wCand2])
    (some ⟨some "V1", some "Mohan", some 25⟩)).2

theorem claim_C3_witness :
    (castVote wSt1 "V1" "C1" (JSCallback.fn fun p => p.candidateId)
        (JSCallback.fn fun s => s)).1 = some "C1" :=
  (claim_C3 wSt1 "V1" "C1" (fun p => p.candidateId) (fun s => s)
    (by decide) (by decide) (by decide)).1

/-- Claim C4: `registerVoter` returns `false` and leaves the state
unchanged when the voter record is missing, when `id` or `name` is
missing or empty, when `age` is not a number, when `age < 18`, or when
the id is already registered; otherwise it appends `voter.id` to the
registered set and returns `true`, changing nothing else. -/
theorem claim_C4 (st : ElectionState) :
    registerVoter st none = (false, st) ∧
    (∀ name age, registerVoter st (some ⟨none, name, age⟩) = (false, st)) ∧
    (∀ name age, registerVoter st (some ⟨some "", name, age⟩) = (false, st)) ∧
    (∀ id age, registerVoter st (some ⟨id, none, age⟩) = (false, st)) ∧
    (∀ id age, registerVoter st (some ⟨id, some "", age⟩) = (false, st)) ∧
    (∀ id name, registerVoter st (some ⟨id, name, none⟩) = (false, st)) ∧
    (∀ id name age, id ≠ "" → name ≠ "" →
      (age < 18 →
        registerVoter st (some ⟨some id, some name, some age⟩) = (false, st)) ∧
      (¬ age < 18 → id ∈ st.registeredVoters →
        registerVoter st (some ⟨some id, some name, some age⟩) = (false, st)) ∧
      (¬ age < 18 → id ∉ st.registeredVoters →
        registerVoter st (some ⟨some id, some name, some age⟩) =
          (true, { st with
            registeredVoters := st.registeredVoters.concat id }))) := by
  refine ⟨rfl, ?_, ?_, ?_, ?_, ?_, ?_⟩
  · intro name age
    rcases name with _ | name <;> rcases age with _ | age <;> rfl
  · intro name age
    rcases name with _ | name <;> rcases age with _ | age <;>
      simp [registerVoter]
  · intro id age
    rcases id with _ | id <;> rcases age with _ | age <;> rfl
  · intro id age
    rcases id with _ | id <;> rcases age with _ | age <;>
      simp [registerVoter]
  · intro id name
    rcases id with _ | id <;> rcases name with _ | name <;> rfl
  · intro id name age hid hname
    refine ⟨?_, ?_, ?_⟩
    · intro h
      simp [registerVoter, hid, hname, h]
    · intro h1 h2
      simp [registerVoter, hid, hname, h1, h2]
    · intro h1 h2
      simp [registerVoter, hid, hname, h1, h2]

theorem claim_C4_witness :
    registerVoter (createElection [wCand1])
        (some ⟨some "V1", some "Mohan", some 25⟩) =
      (true, { createElection [wCand1] with
        registeredVoters :=
          (createElection [wCand1]).registeredVoters.concat "V1" }) :=
  ((claim_C4 (createElection [wCand1])).2.2.2.2.2.2 "V1" "Mohan" 25
    (by decide) (by decide)).2.2 (by decide) (by decide)

/-- Claim C7: `tallyPure` returns a tally equal to the input except that
`candidateId`'s count is incremented by 1 (set to 1 when absent), the
input tally itself is unchanged (values are immutable here), and the
documented examples hold. -/
theorem claim_C7 (t : List (String × Nat)) (cid : String) :
    alGet (tallyPure t cid) cid = some ((alGet t cid).getD 0 + 1) ∧
    (∀ k, k ≠ cid → alGet (tallyPure t cid) k = alGet t k) ∧
    tallyPure [("a", 1)] "a" = [("a", 2)] ∧
    tallyPure ([] : List (String × Nat)) "b" = [("b", 1)] := by
  refine ⟨?_, ?_, by decide, by decide⟩
  · rcases h : alGet t cid with _ | v
    · simp [tallyPure, h, alGet_alSet_self]
    · simp [tallyPure, h, alGet_alSet_self]
  · intro k hk
    rcases h : alGet t cid with _ | v
    · simp [tallyPure, h, alGet_alSet_ne t cid k _ hk]
    · simp [tallyPure, h, alGet_alSet_ne t cid k _ hk]

theorem claim_C7_witness :
    alGet (tallyPure [("a", 1), ("c", 5)] "a") "c" =
      alGet [("a", 1), ("c", 5)] "c" :=
  (claim_C7 [("a", 1), ("c", 5)] "a").2.1 "c" (by decide)

theorem sumRegions_eq_sum (cs : List (Option RegionTree)) :
    sumRegions cs = (cs.map countVotesInRegions).sum := by
  induction cs with
  | nil => simp [sumRegions]
  | cons c rest ih => simp [sumRegions, ih]

/-- Claim C8: `countVotesInRegions` returns 0 on `null`/non-object input,
and otherwise the node's own votes (a missing or falsy `votes` field
counting as 0) plus the recursive sum over `subRegions` when that field
is an array; the documented examples evaluate as stated. -/
theorem claim_C8 :
    countVotesInRegions none = 0 ∧
    (∀ name votes subs,
      countVotesInRegions (some (RegionTree.node name votes subs)) =
        votes.getD 0 +
          (match subs with
           | some children => (children.map countVotesInRegions).sum
           | none => 0)) ∧
    countVotesInRegions (some (RegionTree.node "X" (some 5)
      (some [some (RegionTree.node "Y" (some 3) (some []))]))) = 8 := by
  have hmain : ∀ name votes subs,
      countVotesInRegions (some (RegionTree.node name votes subs)) =
        votes.getD 0 +
          (match subs with
           | some children => (children.map countVotesInRegions).sum
           | none => 0) := by
    intro name votes subs
    rcases subs with _ | children
    · simp [countVotesInRegions]
    · simp [countVotesInRegions, sumRegions_eq_sum]
  refine ⟨by simp [countVotesInRegions], hmain, ?_⟩
  have hY := hmain "Y" (some 3) (some [])
  rw [hmain]
  simp only [Option.getD_some, List.map_nil, List.sum_nil] at hY ⊢
  simp [hY]

theorem claim_C8_witness :
    countVotesInRegions (some (RegionTree.node "Z" none none)) =
      (none : Option Int).getD 0 +
        (match (none : Option (List (Option RegionTree))) with
         | some children => (children.map countVotesInRegions).sum
         | none => 0) :=
  claim_C8.2.1 "Z" none none

theorem firstMissing_eq_find (fields : List String) (v : ValidVoter) :
    firstMissing fields v = fields.find? (fun g => decide (g ∉ v.fields)) := by
  induction fields with
  | nil => rfl
  | cons f rest ih =>
    by_cases h : f ∈ v.fields
    · rw [firstMissing, if_pos h, ih, List.find?]
      simp [h]
    · rw [firstMissing, if_neg h, List.find?]
      simp [h]

/-- Claim C9: the validator returned by `createVoteValidator` rejects a
non-object voter first, then the first required field (in the given
order) that is not an own property, then a numeric age below a truthy
`minAge`, and otherwise accepts with an empty reason. -/
theorem claim_C9 (rules : ValidatorRules) (v : ValidVoter) :
    createVoteValidator rules none =
      { valid := false, reason := "Invalid voter object" } ∧
    (∀ fields, firstMissing fields v =
      fields.find? (fun g => decide (g ∉ v.fields))) ∧
    (∀ fields f, rules.requiredFields = some fields →
      firstMissing fields v = some f →
      createVoteValidator rules (some v) =
        { valid := false, reason := "Missing field: " ++ f }) ∧
    ((match rules.requiredFields with
      | some fields => firstMissing fields v = none
      | none => True) →
     (∀ m, rules.minAge = some m → m ≠ 0 → jsAgeLt v.age m = true →
        createVoteValidator rules (some v) =
          { valid := false, reason := "Age must be at least " ++ toString m }) ∧
     ((match rules.minAge with
       | some m => m = 0 ∨ jsAgeLt v.age m = false
       | none => True) →
      createVoteValidator rules (some v) = { valid := true, reason := "" })) := by
  refine ⟨rfl, fun fields => firstMissing_eq_find fields v, ?_, ?_⟩
  · intro fields f hrf hfm
    simp [createVoteValidator, hrf, hfm]
  · intro hfields
    constructor
    · intro m hm hm0 hlt
      rcases hrf : rules.requiredFields with _ | fields
      · simp [createVoteValidator, hrf, hm, hm0, hlt]
      · rw [hrf] at hfields
        have hf2 : firstMissing fields v = none := hfields
        simp [createVoteValidator, hrf, hf2, hm, hm0, hlt]
    · intro hage
      rcases hrf : rules.requiredFields with _ | fields <;>
        rcases hm : rules.minAge with _ | m
      · simp [createVoteValidator, hrf, hm]
      · rw [hm] at hage
        rcases hage with h0 | hflt
        · simp [createVoteValidator, hrf, hm, h0]
        · simp [createVoteValidator, hrf, hm, hflt]
      · rw [hrf] at hfields
        have hf2 : firstMissing fields v = none := hfields
        simp [createVoteValidator, hrf, hf2, hm]
      · rw [hrf] at hfields
        rw [hm] at hage
        have hf2 : firstMissing fields v = none := hfields
        rcases hage with h0 | hflt
        · simp [createVoteValidator, hrf, hf2, hm, h0]
        · simp [createVoteValidator, hrf, hf2, hm, hflt]

theorem claim_C9_witness :
    createVoteValidator ⟨some 18, some ["id", "age"]⟩ (some ⟨["id"], none⟩) =
      { valid := false, reason := "Missing field: age" } :=
  (claim_C9 ⟨some 18, some ["id", "age"]⟩ ⟨["id"], none⟩).2.2.1
    ["id", "age"] "age" rfl (by decide)

/-- Claim C10: with a truthy `minAge`, a voter that has every required
field as an own property but no numeric `age` passes validation: the
comparison of a missing age against `minAge` is never satisfied. -/
theorem claim_C10 (rules : ValidatorRules) (v : ValidVoter) (m : Int)
    (hm : rules.minAge = some m) (_hmt : m ≠ 0)
    (hfields : match rules.requiredFields with
      | some fields => firstMissing fields v = none
      | none => True)
    (hage : v.age = none) :
    createVoteValidator rules (some v) = { valid := true, reason := "" } := by
  rcases hrf : rules.requiredFields with _ | fields
  · simp [createVoteValidator, hrf, hm, jsAgeLt, hage]
  · rw [hrf] at hfields
    have hf2 : firstMissing fields v = none := hfields
    simp [createVoteValidator, hrf, hf2, hm, jsAgeLt, hage]

theorem claim_C10_witness :
    createVoteValidator ⟨some 18, some ["id", "name"]⟩
        (some ⟨["id", "name"], none⟩) = { valid := true, reason := "" } :=
  claim_C10 ⟨some 18, some ["id", "name"]⟩ ⟨["id", "name"], none⟩ 18 rfl
    (by decide) (by decide) rfl

/-- One step of the `getWinner` scan for a total score function. -/
def scanStep (f : α → Int) (g : α → β) (acc : Int × Option β) (e : α) :
    Int × Option β :=
  if f e > acc.1 then (f e, some (g e)) else acc

/-- The running maximum of the `getWinner` scan, seeded with `-1`. -/
def listMaxI (f : α → Int) : List α → Int
  | [] => -1
  | e :: rest => max (f e) (listMaxI f rest)

theorem le_listMaxI (f : α → Int) (l : List α) (e : α) (he : e ∈ l) :
    f e ≤ listMaxI f l := by
  induction l with
  | nil => exact absurd he (List.not_mem_nil e)
  | cons x xs ih =>
    rcases List.mem_cons.mp he with h | h
    · rw [h, listMaxI]
      exact le_max_left _ _
    · rw [listMaxI]
      exact le_trans (ih h) (le_max_right _ _)

theorem listMaxI_le (f : α → Int) (l : List α) (m : Int) (hm : -1 ≤ m)
    (h : ∀ e ∈ l, f e ≤ m) : listMaxI f l ≤ m := by
  induction l with
  | nil => exact hm
  | cons x xs ih =>
    rw [listMaxI]
    exact max_le (h x (List.mem_cons_self _ _))
      (ih fun e he => h e (List.mem_cons_of_mem _ he))

theorem scan_const (f : α → Int) (g : α → β) (l : List α) (m₀ : Int)
    (w₀ : Option β) (h : ∀ e ∈ l, f e ≤ m₀) :
    l.foldl (scanStep f g) (m₀, w₀) = (m₀, w₀) := by
  induction l with
  | nil => rfl
  | cons e rest ih =>
    rw [List.foldl_cons]
    have hstep : scanStep f g (m₀, w₀) e = (m₀, w₀) := by
      have : ¬ f e > m₀ := not_lt.mpr (h e (List.mem_cons_self _ _))
      simp [scanStep, this]
    rw [hstep]
    exact ih fun e he => h e (List.mem_cons_of_mem _ he)

theorem scan_spec (f : α → Int) (g : α → β) (l : List α) (m₀ : Int)
    (w₀ : Option β) (hnn : ∀ e ∈ l, 0 ≤ f e) (hex : ∃ e ∈ l, m₀ < f e) :
    l.foldl (scanStep f g) (m₀, w₀) =
      (listMaxI f l,
       (l.find? (fun e => decide (f e = listMaxI f l))).map g) := by
  induction l generalizing m₀ w₀ with
  | nil =>
    rcases hex with ⟨e, he, _⟩
    exact absurd he (List.not_mem_nil e)
  | cons e rest ih =>
    rw [List.foldl_cons]
    by_cases hgt : f e > m₀
    · have hstep : scanStep f g (m₀, w₀) e = (f e, some (g e)) := by
        simp [scanStep, hgt]
      rw [hstep]
      by_cases hbig : ∃ x ∈ rest, f e < f x
      · have hmax : listMaxI f (e :: rest) = listMaxI f rest := by
          rcases hbig with ⟨x, hx, hfx⟩
          rw [listMaxI]
          have h1 : f x ≤ listMaxI f rest := le_listMaxI f rest x hx
          omega
        rw [ih (f e) (some (g e))
          (fun x hx => hnn x (List.mem_cons_of_mem _ hx)) hbig, hmax]
        have hrest : m₀ < listMaxI f rest := by
          rcases hbig with ⟨x, hx, hfx⟩
          have h1 : f x ≤ listMaxI f rest := le_listMaxI f rest x hx
          omega
        have hne : ¬ (decide (f e = listMaxI f rest) = true) := by
          rcases hbig with ⟨x, hx, hfx⟩
          have h1 : f x ≤ listMaxI f rest := le_listMaxI f rest x hx
          simp only [decide_eq_true_eq]
          omega
        rw [List.find?_cons_of_neg rest hne]
      · push_neg at hbig
        have hmax : listMaxI f (e :: rest) = f e := by
          rw [listMaxI]
          have h1 : listMaxI f rest ≤ f e :=
            listMaxI_le f rest (f e)
              (le_trans (by omega) (hnn e (List.mem_cons_self _ _))) hbig
          omega
        rw [scan_const f g rest (f e) (some (g e)) hbig, hmax]
        have hpos : decide (f e = f e) = true := by simp
        rw [List.find?_cons_of_pos rest hpos]
        rfl
    · have hstep : scanStep f g (m₀, w₀) e = (m₀, w₀) := by
        simp [scanStep, hgt]
      rw [hstep]
      have hex' : ∃ x ∈ rest, m₀ < f x := by
        rcases hex with ⟨x, hx, hmx⟩
        rcases List.mem_cons.mp hx with hx | hx
        · rw [hx] at hmx
          exact absurd hmx hgt
        · exact ⟨x, hx, hmx⟩
      rw [ih m₀ w₀ (fun x hx => hnn x (List.mem_cons_of_mem _ hx)) hex']
      have hrest : m₀ < listMaxI f rest := by
        rcases hex' with ⟨x, hx, hmx⟩
        exact lt_of_lt_of_le hmx (le_listMaxI f rest x hx)
      have hmax : listMaxI f (e :: rest) = listMaxI f rest := by
        rw [listMaxI]
        have h1 : f e ≤ m₀ := not_lt.mp hgt
        omega
      rw [hmax]
      have hne : ¬ (decide (f e = listMaxI f rest) = true) := by
        have h1 : f e ≤ m₀ := not_lt.mp hgt
        simp only [decide_eq_true_eq]
        omega
      rw [List.find?_cons_of_neg rest hne]

theorem winStep_eq_scanStep (st : ElectionState) (acc : Int × Option Candidate)
    (e : String × Candidate) (h : (alGet st.votes e.1).isSome = true) :
    winStep st acc e =
      scanStep (fun e => (votesAt st e.1 : Int)) (fun e => e.2) acc e := by
  rcases Option.isSome_iff_exists.mp h with ⟨v, hv⟩
  simp [winStep, scanStep, votesAt, hv]

theorem foldl_winStep_eq (st : ElectionState) (l : List (String × Candidate))
    (acc : Int × Option Candidate)
    (h : ∀ e ∈ l, (alGet st.votes e.1).isSome = true) :
    l.foldl (winStep st) acc =
      l.foldl (scanStep (fun e => (votesAt st e.1 : Int)) (fun e => e.2)) acc := by
  induction l generalizing acc with
  | nil => rfl
  | cons e rest ih =>
    rw [List.foldl_cons, List.foldl_cons,
      winStep_eq_scanStep st acc e (h e (List.mem_cons_self _ _))]
    exact ih _ fun x hx => h x (List.mem_cons_of_mem _ hx)

theorem foldl_add_eq_sum (l : List Nat) (n : Nat) :
    l.foldl (· + ·) n = n + l.sum := by
  induction l generalizing n with
  | nil => simp
  | cons x xs ih =>
    rw [List.foldl_cons, ih, List.sum_cons]
    omega

theorem getWinner_eq_ite (st : ElectionState) :
    getWinner st = if sumVotes st = 0 then none
      else (st.candidateMap.foldl (winStep st) ((-1 : Int), none)).2 := by
  have h : (st.votes.map Prod.snd).foldl (· + ·) 0 = sumVotes st := by
    rw [foldl_add_eq_sum]
    exact Nat.zero_add _
  simp only [getWinner, h]

theorem listMaxI_natCast (f : α → Nat) (l : List α) (hne : l ≠ []) :
    listMaxI (fun e => (f e : Int)) l = (((l.map f).foldr max 0 : Nat) : Int) := by
  induction l with
  | nil => exact absurd rfl hne
  | cons e rest ih =>
    cases hr : rest with
    | nil =>
      subst hr
      rw [listMaxI, listMaxI, List.map_cons, List.map_nil, List.foldr_cons,
        List.foldr_nil]
      have hc := Int.natCast_nonneg (f e)
      push_cast
      omega
    | cons b rest' =>
      subst hr
      rw [listMaxI, ih (List.cons_ne_nil _ _),
        show List.map f (e :: b :: rest') = f e :: List.map f (b :: rest')
          from rfl,
        List.foldr_cons, Nat.cast_max]

theorem foldr_max_attained (l : List Nat) (hne : l ≠ []) :
    ∃ x ∈ l, l.foldr max 0 = x := by
  induction l with
  | nil => exact absurd rfl hne
  | cons a rest ih =>
    cases hr : rest with
    | nil =>
      refine ⟨a, List.mem_cons_self _ _, ?_⟩
      simp
    | cons b rest' =>
      subst hr
      rcases ih (List.cons_ne_nil _ _) with ⟨x, hx, hfx⟩
      by_cases hle : (b :: rest').foldr max 0 ≤ a
      · refine ⟨a, List.mem_cons_self _ _, ?_⟩
        rw [List.foldr_cons]
        omega
      · refine ⟨x, List.mem_cons_of_mem _ hx, ?_⟩
        rw [List.foldr_cons]
        omega

theorem maxCount_attained (st : ElectionState) (hne : st.candidateMap ≠ []) :
    ∃ e ∈ st.candidateMap, votesAt st e.1 = maxCount st := by
  have h := foldr_max_attained (st.candidateMap.map fun e => votesAt st e.1)
    (by simpa using hne)
  rcases h with ⟨x, hx, hfx⟩
  rcases List.mem_map.mp hx with ⟨e, he, hex⟩
  exact ⟨e, he, by rw [hex, ← hfx]; rfl⟩

theorem find?_congr_mem (l : List α) (p q : α → Bool)
    (h : ∀ x ∈ l, p x = q x) : l.find? p = l.find? q := by
  induction l with
  | nil => rfl
  | cons x xs ih =>
    cases hq : q x with
    | true =>
      rw [List.find?_cons_of_pos xs (by rw [h x (List.mem_cons_self _ _), hq]),
        List.find?_cons_of_pos xs hq]
    | false =>
      rw [List.find?_cons_of_neg xs (by rw [h x (List.mem_cons_self _ _), hq]; simp),
        List.find?_cons_of_neg xs (by rw [hq]; simp)]
      exact ih fun y hy => h y (List.mem_cons_of_mem _ hy)

theorem winner_scan (st : ElectionState) (hinv : StrongInv st)
    (hne : st.candidateMap ≠ []) :
    (st.candidateMap.foldl (winStep st) ((-1 : Int), none)).2 =
      (st.candidateMap.find?
        (fun e => decide (votesAt st e.1 = maxCount st))).map Prod.snd := by
  have hdef : ∀ e ∈ st.candidateMap, (alGet st.votes e.1).isSome = true := by
    intro e he
    rw [alGet_isSome_iff, hinv.keysEq]
    exact List.mem_map_of_mem Prod.fst he
  rw [foldl_winStep_eq st _ _ hdef]
  have hex : ∃ e ∈ st.candidateMap, (-1 : Int) < (votesAt st e.1 : Int) := by
    rcases List.exists_mem_of_ne_nil st.candidateMap hne with ⟨e, he⟩
    refine ⟨e, he, ?_⟩
    have := Int.natCast_nonneg (votesAt st e.1)
    omega
  rw [scan_spec (fun e => (votesAt st e.1 : Int)) (fun e => e.2)
    st.candidateMap (-1) none (fun e _ => Int.natCast_nonneg _) hex]
  have hcast : listMaxI (fun e => (votesAt st e.1 : Int)) st.candidateMap =
      ((maxCount st : Nat) : Int) :=
    listMaxI_natCast (fun e => votesAt st e.1) st.candidateMap hne
  have hpred : ∀ x ∈ st.candidateMap,
      decide ((votesAt st x.1 : Int) =
        listMaxI (fun e => (votesAt st e.1 : Int)) st.candidateMap) =
      decide (votesAt st x.1 = maxCount st) := by
    intro x _
    rw [hcast]
    exact decide_eq_decide.mpr Nat.cast_inj
  rw [find?_congr_mem st.candidateMap _ _ hpred]

/-- Claim C5: `getWinner` returns `null` exactly when the vote total is 0,
and otherwise the candidate object of the first candidate in
`candidateMap` iteration order whose count equals the maximum (ties go to
the earliest entry, by the strict `>` scan). -/
theorem claim_C5 (st : ElectionState) (h : Reachable st) :
    (getWinner st = none ↔ sumVotes st = 0) ∧
    (sumVotes st ≠ 0 →
      getWinner st =
        (st.candidateMap.find?
          (fun e => decide (votesAt st e.1 = maxCount st))).map Prod.snd) := by
  have hinv := strongInv_reachable st h
  by_cases hz : sumVotes st = 0
  · rw [getWinner_eq_ite, if_pos hz]
    exact ⟨⟨fun _ => hz, fun _ => rfl⟩, fun hc => absurd hz hc⟩
  · have hvne : st.votes ≠ [] := by
      intro hc
      exact hz (by simp [sumVotes, hc])
    have hmne : st.candidateMap ≠ [] := by
      intro hc
      have hk : keysList st.votes = [] := by
        rw [hinv.keysEq, hc]
        rfl
      exact hvne (List.map_eq_nil_iff.mp hk)
    rw [getWinner_eq_ite, if_neg hz, winner_scan st hinv hmne]
    refine ⟨⟨fun hnone => ?_, fun hc => absurd hc hz⟩, fun _ => rfl⟩
    exfalso
    rcases maxCount_attained st hmne with ⟨e, he, hfe⟩
    have hsome : (st.candidateMap.find?
        (fun e => decide (votesAt st e.1 = maxCount st))).isSome = true :=
      List.find?_isSome.mpr ⟨e, he, by simp [hfe]⟩
    rw [Option.map_eq_none'.mp hnone] at hsome
    exact Bool.false_ne_true hsome

/-- The state after V1's successful vote for C1, used by the witnesses. -/
def wSt2 : ElectionState :=
  (castVote wSt1 "V1" "C1" (JSCallback.fn fun _ => ())
    (JSCallback.fn fun _ => ())).2

theorem claim_C5_witness :
    sumVotes wSt2 ≠ 0 ∧
    getWinner wSt2 =
      (wSt2.candidateMap.find?
        (fun e => decide (votesAt wSt2 e.1 = maxCount wSt2))).map Prod.snd :=
  ⟨by decide,
   (claim_C5 wSt2 ⟨[wCand1, wCand2], wOps, by decide⟩).2 (by decide)⟩

theorem insertCmp_perm (cmp : α → α → Int) (x : α) (l : List α) :
    (insertCmp cmp x l).Perm (x :: l) := by
  induction l with
  | nil => exact List.Perm.refl _
  | cons y ys ih =>
    by_cases h : cmp x y ≤ 0
    · rw [insertCmp, if_pos h]
    · rw [insertCmp, if_neg h]
      exact List.Perm.trans (List.Perm.cons y ih) (List.Perm.swap x y ys)

theorem sortCmp_perm (cmp : α → α → Int) (l : List α) :
    (sortCmp cmp l).Perm l := by
  induction l with
  | nil => exact List.Perm.refl _
  | cons x xs ih =>
    exact List.Perm.trans (insertCmp_perm cmp x (sortCmp cmp xs))
      (List.Perm.cons x ih)

theorem mem_insertCmp (cmp : α → α → Int) (x : α) (l : List α) (b : α) :
    b ∈ insertCmp cmp x l ↔ b = x ∨ b ∈ l := by
  rw [(insertCmp_perm cmp x l).mem_iff, List.mem_cons]

theorem insertCmp_pairwise (x : ResultEntry) (l : List ResultEntry)
    (hl : l.Pairwise (fun a b => b.votes ≤ a.votes)) :
    (insertCmp byVotesDesc x l).Pairwise (fun a b => b.votes ≤ a.votes) := by
  induction l with
  | nil => simp [insertCmp]
  | cons y ys ih =>
    rw [List.pairwise_cons] at hl
    by_cases h : byVotesDesc x y ≤ 0
    · rw [insertCmp, if_pos h]
      have hyx : y.votes ≤ x.votes := by
        simp only [byVotesDesc] at h
        omega
      rw [List.pairwise_cons]
      refine ⟨?_, List.pairwise_cons.mpr hl⟩
      intro b hb
      rcases List.mem_cons.mp hb with hb | hb
      · rw [hb]
        exact hyx
      · exact le_trans (hl.1 b hb) hyx
    · rw [insertCmp, if_neg h]
      have hxy : x.votes ≤ y.votes := by
        simp only [byVotesDesc] at h
        omega
      rw [List.pairwise_cons]
      refine ⟨?_, ih hl.2⟩
      intro b hb
      rcases (mem_insertCmp byVotesDesc x ys b).mp hb with hb | hb
      · rw [hb]
        exact hxy
      · exact hl.1 b hb

theorem sortCmp_pairwise (l : List ResultEntry) :
    (sortCmp byVotesDesc l).Pairwise (fun a b => b.votes ≤ a.votes) := by
  induction l with
  | nil => exact List.Pairwise.nil
  | cons x xs ih => exact insertCmp_pairwise x (sortCmp byVotesDesc xs) ih

theorem filter_insertCmp_byVotes (x : ResultEntry) (l : List ResultEntry)
    (v : Nat) :
    (insertCmp byVotesDesc x l).filter (fun e => decide (e.votes = v)) =
      if x.votes = v then x :: l.filter (fun e => decide (e.votes = v))
      else l.filter (fun e => decide (e.votes = v)) := by
  induction l with
  | nil =>
    by_cases h : x.votes = v <;> simp [insertCmp, List.filter, h]
  | cons y ys ih =>
    by_cases h : byVotesDesc x y ≤ 0
    · rw [insertCmp, if_pos h]
      by_cases hx : x.votes = v <;> simp [List.filter_cons, hx]
    · rw [insertCmp, if_neg h]
      have hlt : x.votes < y.votes := by
        simp only [byVotesDesc] at h
        omega
      by_cases hx : x.votes = v
      · have hy : ¬ y.votes = v := by omega
        rw [if_pos hx]
        simp [List.filter_cons, ih, hx, hy]
      · rw [if_neg hx]
        by_cases hy : y.votes = v
        · simp [List.filter_cons, ih, hx, hy]
        · simp [List.filter_cons, ih, hx, hy]

theorem filter_sortCmp_byVotes (l : List ResultEntry) (v : Nat) :
    (sortCmp byVotesDesc l).filter (fun e => decide (e.votes = v)) =
      l.filter (fun e => decide (e.votes = v)) := by
  induction l with
  | nil => rfl
  | cons x xs ih =>
    rw [sortCmp, filter_insertCmp_byVotes, List.filter_cons]
    by_cases hx : x.votes = v
    · rw [if_pos hx, ih]
      simp [hx]
    · rw [if_neg hx, ih]
      simp [hx]

/-- Claim C6: `getResults()` without a usable comparator yields one entry
`{id, name, party, votes}` per candidate carrying the current count, is a
stable descending sort by votes of the rows built in `candidateMap`
iteration order (a permutation, sorted by `votes` descending, with every
equal-votes class kept in build order), and reads the state without
changing it (all values here are immutable, and the rows are freshly
built records). -/
theorem claim_C6 (st : ElectionState) :
    buildResults st = st.candidateMap.map (fun e =>
      { id := e.2.id, name := e.2.name, party := e.2.party,
        votes := votesAt st e.1 }) ∧
    (getResults st none).Perm (buildResults st) ∧
    (getResults st none).Pairwise (fun a b => b.votes ≤ a.votes) ∧
    (∀ v, (getResults st none).filter (fun e => decide (e.votes = v)) =
      (buildResults st).filter (fun e => decide (e.votes = v))) := by
  refine ⟨rfl, ?_, ?_, ?_⟩
  · exact sortCmp_perm byVotesDesc (buildResults st)
  · exact sortCmp_pairwise (buildResults st)
  · intro v
    exact filter_sortCmp_byVotes (buildResults st) v

theorem claim_C6_witness :
    (getResults wSt2 none).Perm (buildResults wSt2) := (claim_C6 wSt2).2.1
